import Mathlib

/-!
Verification of the multi-tenant kanban board API (kanban/api/views.py together
with kanban/api/serializers.py and kanban/models.py).

The relational store is embedded as two lists of records (columns and tasks).
Each REST operation is translated to a pure function on that store, returning
either a new store (plus created entity where applicable) or a typed error that
mirrors the HTTP status the view produces (400 validation, 404 not found,
403 forbidden).  Django/DRF behaviours that the views rely on are embedded
explicitly: queryset user-scoping, PrimaryKeyRelatedField lookup against the
user-filtered queryset, CharField trimming, the FK cascade on column deletion,
and the aggregate Max(order) "or 0" idiom.
-/

namespace Kanban

/-- Typed failure mirroring the HTTP statuses produced by the API views. -/
inductive ApiError where
  | validationError
  | notFound
  | forbidden
deriving DecidableEq, Repr

/-- A row of the Column table (kanban/models.py): user FK, name, order. -/
structure Column where
  id : Int
  user : Int
  name : String
  order : Int
deriving DecidableEq, Repr

/-- A row of the Task table (kanban/models.py): user FK, title, description,
column FK, global order, timestamps. -/
structure Task where
  id : Int
  user : Int
  title : String
  description : String
  column : Int
  order : Int
  createdAt : Int
  updatedAt : Int
deriving DecidableEq, Repr

/-- The relational store: all Column rows and all Task rows. -/
structure Store where
  columns : List Column
  tasks : List Task
deriving DecidableEq, Repr

instance {ε α : Type} [DecidableEq ε] [DecidableEq α] : DecidableEq (Except ε α) :=
  fun x y =>
    match x, y with
    | .ok a, .ok b => if h : a = b then isTrue (by rw [h]) else isFalse (by simp [h])
    | .error e, .error f => if h : e = f then isTrue (by rw [h]) else isFalse (by simp [h])
    | .ok _, .error _ => isFalse (by simp)
    | .error _, .ok _ => isFalse (by simp)

/-- Column.objects.filter(user=u): the caller's columns. -/
def ownedColumns (u : Int) (s : Store) : List Column :=
  s.columns.filter (fun c => decide (c.user = u))

/-- Task.objects.filter(user=u): the caller's tasks. -/
def ownedTasks (u : Int) (s : Store) : List Task :=
  s.tasks.filter (fun t => decide (t.user = u))

/-- Whitespace as Python str.strip() sees it. -/
def pyIsSpace (c : Char) : Bool :=
  decide (c = ' ' ∨ c = '\t' ∨ c = '\n' ∨ c = '\r' ∨ c = '\x0b' ∨ c = '\x0c')

/-- Drop leading whitespace characters. -/
def dropLeadingWS : List Char → List Char
  | [] => []
  | c :: cs => if pyIsSpace c then dropLeadingWS cs else c :: cs

/-- Python value.strip(): remove leading and trailing whitespace. -/
def pyStrip (value : String) : String :=
  ⟨(dropLeadingWS (dropLeadingWS value.data).reverse).reverse⟩

/-- TaskSerializer.validate_title together with the DRF CharField pipeline:
the value is stripped, blank results are rejected, max_length=200 is enforced,
and the cleaned (stripped) value is what gets stored. -/
def validate_title (value : String) : Option String :=
  let cleaned := pyStrip value
  if cleaned = "" then none
  else if 200 < cleaned.length then none
  else some cleaned

/-- ColumnSerializer.validate_name together with the DRF CharField pipeline
(strip, reject blank, max_length=100). -/
def validate_name (value : String) : Option String :=
  let cleaned := pyStrip value
  if cleaned = "" then none
  else if 100 < cleaned.length then none
  else some cleaned

/-- The Django idiom aggregate(Max(order))["order__max"] or 0: the maximum of
the listed orders, or 0 when the query set is empty.  (Python "or 0" maps a
None aggregate and a 0 aggregate to 0, which agrees with this definition.) -/
def listMaxOr0 : List Int → Int
  | [] => 0
  | [x] => x
  | x :: y :: rest => max x (listMaxOr0 (y :: rest))

/-- Comparison used by Task.Meta.ordering = ["order", "-created_at"]. -/
def taskLe (t1 t2 : Task) : Bool :=
  decide (t1.order < t2.order ∨ (t1.order = t2.order ∧ t2.createdAt ≤ t1.createdAt))

/-- Sort tasks by (order ascending, created_at descending). -/
def sortTasks (l : List Task) : List Task :=
  l.mergeSort taskLe

/-- Comparison used by Column.Meta.ordering = ["order"]. -/
def columnLe (c1 c2 : Column) : Bool :=
  decide (c1.order ≤ c2.order)

/-- Sort columns by order ascending. -/
def sortColumns (l : List Column) : List Column :=
  l.mergeSort columnLe

/-- ColumnViewSet.get_queryset: the caller's columns, in board order. -/
def column_get_queryset (u : Int) (s : Store) : List Column :=
  sortColumns (ownedColumns u s)

/-- TaskViewSet.get_queryset: the caller's tasks, optionally filtered by the
"column" query parameter, ordered by (order, -created_at). -/
def task_get_queryset (u : Int) (columnFilter : Option Int) (s : Store) : List Task :=
  let queryset := ownedTasks u s
  let queryset :=
    match columnFilter with
    | none => queryset
    | some cid => queryset.filter (fun t => decide (t.column = cid))
  sortTasks queryset

/-- Retrieval of a single task: get_object() looks the pk up inside the
user-scoped queryset, so a task of another user is simply not found. -/
def task_retrieve (u : Int) (s : Store) (taskId : Int) : Option Task :=
  (ownedTasks u s).find? (fun t => decide (t.id = taskId))

/-- Retrieval of a single column inside the user-scoped queryset.  This is
also the lookup performed by PrimaryKeyRelatedField once the serializer has
restricted its queryset to Column.objects.filter(user=u). -/
def column_retrieve (u : Int) (s : Store) (cid : Int) : Option Column :=
  (ownedColumns u s).find? (fun c => decide (c.id = cid))

/-- BoardView.get: the caller's columns in order, each paired with the tasks
of that column (the related manager c.tasks, ordered by Task.Meta.ordering). -/
def board_get (u : Int) (s : Store) : List (Column × List Task) :=
  (sortColumns (ownedColumns u s)).map
    (fun c => (c, sortTasks (s.tasks.filter (fun t => decide (t.column = c.id)))))

/-- TaskViewSet.create: TaskCreateSerializer validates the title and resolves
column_id inside the user-scoped queryset (rejecting non-owned columns as a
validation error), then perform_create saves with user=request.user and
order = (Max over ALL of the user's tasks or 0) + 1. -/
def task_create (u : Int) (s : Store) (titleInput descriptionInput : String)
    (columnId : Int) (newId now : Int) : Except ApiError (Task × Store) :=
  match validate_title titleInput with
  | none => .error .validationError
  | some title =>
    match column_retrieve u s columnId with
    | none => .error .validationError
    | some _ =>
      let maxOrder := listMaxOr0 ((ownedTasks u s).map Task.order)
      let task : Task :=
        { id := newId, user := u, title := title, description := descriptionInput,
          column := columnId, order := maxOrder + 1, createdAt := now, updatedAt := now }
      .ok (task, { s with tasks := s.tasks ++ [task] })

/-- ColumnViewSet.create: ColumnCreateSerializer validates the name, then
perform_create saves with user=request.user and
order = (Max over the user's columns or 0) + 1. -/
def column_create (u : Int) (s : Store) (nameInput : String) (newId : Int) :
    Except ApiError (Column × Store) :=
  match validate_name nameInput with
  | none => .error .validationError
  | some name =>
    let maxOrder := listMaxOr0 ((ownedColumns u s).map Column.order)
    let column : Column := { id := newId, user := u, name := name, order := maxOrder + 1 }
    .ok (column, { s with columns := s.columns ++ [column] })

/-- Column rename (PATCH on ColumnViewSet): get_object inside the user-scoped
queryset (404 otherwise), validate_name, then save the trimmed name. -/
def column_update_name (u : Int) (s : Store) (cid : Int) (nameInput : String) :
    Except ApiError Store :=
  match column_retrieve u s cid with
  | none => .error .notFound
  | some _ =>
    match validate_name nameInput with
    | none => .error .validationError
    | some name =>
      .ok { s with columns := s.columns.map (fun c =>
        if c.id = cid ∧ c.user = u then { c with name := name } else c) }

/-- Task update (PUT on TaskViewSet): get_object inside the user-scoped
queryset, TaskSerializer validates title and resolves column_id inside the
user-scoped column queryset; order is writable and optional. -/
def task_update (u : Int) (s : Store) (taskId : Int)
    (titleInput descriptionInput : String) (columnId : Int)
    (orderInput : Option Int) (now : Int) : Except ApiError Store :=
  match task_retrieve u s taskId with
  | none => .error .notFound
  | some _ =>
    match validate_title titleInput with
    | none => .error .validationError
    | some title =>
      match column_retrieve u s columnId with
      | none => .error .validationError
      | some _ =>
        .ok { s with tasks := s.tasks.map (fun t =>
          if t.id = taskId ∧ t.user = u then
            { t with title := title, description := descriptionInput,
                     column := columnId, order := orderInput.getD t.order,
                     updatedAt := now }
          else t) }

/-- TaskMoveSerializer declares order = IntegerField(min_value=0, required=False). -/
def order_min_ok : Option Int → Bool
  | none => true
  | some o => decide (0 ≤ o)

/-- TaskViewSet.move: get_object inside the user-scoped queryset (404 if the
task is not the caller's), then TaskMoveSerializer validation (400 if the
target column is not the caller's, or order is negative); on success the task
gets the new column, the new order only when one was supplied, and a fresh
updated_at; no other row is written. -/
def task_move (u : Int) (s : Store) (taskId columnId : Int)
    (newOrder : Option Int) (now : Int) : Except ApiError Store :=
  match task_retrieve u s taskId with
  | none => .error .notFound
  | some _ =>
    if order_min_ok newOrder = false then .error .validationError
    else
      match column_retrieve u s columnId with
      | none => .error .validationError
      | some _ =>
        .ok { s with tasks := s.tasks.map (fun t =>
          if t.id = taskId ∧ t.user = u then
            { t with column := columnId, order := newOrder.getD t.order,
                     updatedAt := now }
          else t) }

/-- Task deletion: get_object inside the user-scoped queryset, then the row
with that pk is deleted. -/
def task_destroy (u : Int) (s : Store) (taskId : Int) : Except ApiError Store :=
  match task_retrieve u s taskId with
  | none => .error .notFound
  | some _ =>
    .ok { s with tasks := s.tasks.filter (fun t => decide (t.id ≠ taskId)) }

/-- Column deletion: get_object inside the user-scoped queryset, then
instance.delete(); the Task.column FK has on_delete=CASCADE, so every task row
referencing the column is deleted with it. -/
def column_destroy (u : Int) (s : Store) (cid : Int) : Except ApiError Store :=
  match column_retrieve u s cid with
  | none => .error .notFound
  | some _ =>
    .ok { columns := s.columns.filter (fun c => decide (c.id ≠ cid)),
          tasks := s.tasks.filter (fun t => decide (t.column ≠ cid)) }

/-- One element of the reorder payload: a JSON object that may or may not
carry the "id" and "order" keys (DictField of integers). -/
structure ReorderItem where
  idKey : Option Int
  orderKey : Option Int
deriving DecidableEq, Repr

/-- The key-presence loop of validate_task_orders / validate_column_orders:
each item must carry both "id" and "order". -/
def collect_orders : List ReorderItem → Option (List (Int × Int))
  | [] => some []
  | item :: rest =>
    match item.idKey, item.orderKey with
    | some i, some o => (collect_orders rest).map (fun pairs => (i, o) :: pairs)
    | _, _ => none

/-- TaskReorderSerializer / ColumnReorderSerializer: ListField(min_length=1)
followed by the id/order key check.  An empty list or a missing key is a
validation error. -/
def validate_orders (items : List ReorderItem) : Option (List (Int × Int)) :=
  if items.isEmpty then none else collect_orders items

/-- Set equality of id lists, as Python set(ids) != user_ids computes it. -/
def sameIdSet (l1 l2 : List Int) : Bool :=
  l1.all (fun i => l2.contains i) && l2.all (fun i => l1.contains i)

/-- The write loop shared by both reorder views: for each (id, order) pair,
filter(id=..., user=u).update(order=...).  Generic over the entity via its id
and user projections and its order-setter. -/
def updateOrders {α : Type} (getId getUser : α → Int) (setOrder : α → Int → α)
    (u : Int) (pairs : List (Int × Int)) (xs : List α) : List α :=
  pairs.foldl (fun ys pair =>
    ys.map (fun x => if getId x = pair.1 ∧ getUser x = u then setOrder x pair.2 else x)) xs

/-- The cumulative effect of the write loop on a single row. -/
def applyPairs {α : Type} (getId getUser : α → Int) (setOrder : α → Int → α)
    (u : Int) (pairs : List (Int × Int)) (x : α) : α :=
  pairs.foldl (fun x pair => if getId x = pair.1 ∧ getUser x = u then setOrder x pair.2 else x) x

/-- Order-setter for tasks: .update(order=o) writes only the order column
(updated_at is untouched because queryset update bypasses auto_now). -/
def taskSetOrder (t : Task) (o : Int) : Task := { t with order := o }

/-- Order-setter for columns. -/
def columnSetOrder (c : Column) (o : Int) : Column := { c with order := o }

/-- ReorderTasksView.post: validate the payload, collect the referenced ids,
compare them as a set with the caller's matching task ids (403 on mismatch,
before any write), then perform the batch of verbatim order updates inside one
transaction and report the count. -/
def reorder_tasks_post (u : Int) (s : Store) (items : List ReorderItem) :
    Except ApiError (Store × Nat) :=
  match validate_orders items with
  | none => .error .validationError
  | some task_orders =>
    let task_ids := task_orders.map Prod.fst
    let user_task_ids :=
      ((ownedTasks u s).filter (fun t => task_ids.contains t.id)).map Task.id
    if sameIdSet task_ids user_task_ids then
      .ok ({ s with tasks := updateOrders Task.id Task.user taskSetOrder u task_orders s.tasks },
           task_orders.length)
    else .error .forbidden

/-- ReorderColumnsView.post: identical to the task version, over columns. -/
def reorder_columns_post (u : Int) (s : Store) (items : List ReorderItem) :
    Except ApiError (Store × Nat) :=
  match validate_orders items with
  | none => .error .validationError
  | some column_orders =>
    let column_ids := column_orders.map Prod.fst
    let user_column_ids :=
      ((ownedColumns u s).filter (fun c => column_ids.contains c.id)).map Column.id
    if sameIdSet column_ids user_column_ids then
      .ok ({ s with columns := updateOrders Column.id Column.user columnSetOrder u column_orders s.columns },
           column_orders.length)
    else .error .forbidden

/-- The store an operation leaves behind: the new store on success, the old
store on a typed failure (the views return the error before any write). -/
def resultState (s : Store) : Except ApiError Store → Store
  | .ok s2 => s2
  | .error _ => s

/-- Same, for operations that also return the created entity. -/
def resultStateTask (s : Store) : Except ApiError (Task × Store) → Store
  | .ok p => p.2
  | .error _ => s

/-- Same, for column creation. -/
def resultStateColumn (s : Store) : Except ApiError (Column × Store) → Store
  | .ok p => p.2
  | .error _ => s

/-- Same, for the reorder endpoints (which also return a count). -/
def resultStatePair (s : Store) : Except ApiError (Store × Nat) → Store
  | .ok p => p.1
  | .error _ => s

/-- Database well-formedness: primary keys are unique. -/
def Store.WF (s : Store) : Prop :=
  (s.tasks.map Task.id).Nodup ∧ (s.columns.map Column.id).Nodup

/-- The ownership invariant: every task references a column of its own user. -/
def OwnerConsistent (s : Store) : Prop :=
  ∀ t ∈ s.tasks, ∃ c ∈ s.columns, c.id = t.column ∧ c.user = t.user

instance (s : Store) : Decidable (Store.WF s) := by
  unfold Store.WF; infer_instance

instance (s : Store) : Decidable (OwnerConsistent s) := by
  unfold OwnerConsistent; infer_instance

/-- B-owned data is unchanged between two stores. -/
def FrameB (B : Int) (s s2 : Store) : Prop :=
  ownedTasks B s2 = ownedTasks B s ∧ ownedColumns B s2 = ownedColumns B s

/-- Owner isolation: every read by A returns only A-owned rows, and every
write by A leaves B-owned rows exactly as they were. -/
def OwnerIsolationSpec (A B : Int) (s : Store) : Prop :=
  (∀ columnFilter, ∀ t ∈ task_get_queryset A columnFilter s, t.user = A) ∧
  (∀ c ∈ column_get_queryset A s, c.user = A) ∧
  (∀ taskId t, task_retrieve A s taskId = some t → t.user = A) ∧
  (∀ cid c, column_retrieve A s cid = some c → c.user = A) ∧
  (∀ entry ∈ board_get A s, entry.1.user = A ∧ ∀ t ∈ entry.2, t.user = A) ∧
  (∀ ti de cid nid now tk s2, task_create A s ti de cid nid now = .ok (tk, s2) →
    FrameB B s s2) ∧
  (∀ nm nid c s2, column_create A s nm nid = .ok (c, s2) → FrameB B s s2) ∧
  (∀ tid ti de cid ord now s2, task_update A s tid ti de cid ord now = .ok s2 →
    FrameB B s s2) ∧
  (∀ cid nm s2, column_update_name A s cid nm = .ok s2 → FrameB B s s2) ∧
  (∀ tid cid ord now s2, task_move A s tid cid ord now = .ok s2 → FrameB B s s2) ∧
  (∀ tid s2, task_destroy A s tid = .ok s2 → FrameB B s s2) ∧
  (∀ cid s2, column_destroy A s cid = .ok s2 → FrameB B s s2) ∧
  (∀ items s2 n, reorder_tasks_post A s items = .ok (s2, n) → FrameB B s s2) ∧
  (∀ items s2 n, reorder_columns_post A s items = .ok (s2, n) → FrameB B s s2)

/-- All-or-nothing authorization for the batch reorder endpoints: one pair
referencing a row the caller does not own makes the whole call fail with
Forbidden, leaving the store untouched. -/
def ReorderAllOrNothing (u : Int) (s : Store) (items : List ReorderItem)
    (pairs : List (Int × Int)) : Prop :=
  ((∃ p ∈ pairs, ∀ t ∈ ownedTasks u s, t.id ≠ p.1) →
    reorder_tasks_post u s items = .error .forbidden ∧
    resultStatePair s (reorder_tasks_post u s items) = s) ∧
  ((∃ p ∈ pairs, ∀ c ∈ ownedColumns u s, c.id ≠ p.1) →
    reorder_columns_post u s items = .error .forbidden ∧
    resultStatePair s (reorder_columns_post u s items) = s)

/-- Successful task reorder: each referenced task gets exactly the supplied
order (verbatim), every unreferenced task keeps all its fields, and the new
task table is pointwise the old one with only the listed orders replaced. -/
def ReorderVerbatimTasks (u : Int) (s : Store) (items : List ReorderItem)
    (pairs : List (Int × Int)) : Prop :=
  ∃ s2, reorder_tasks_post u s items = .ok (s2, pairs.length) ∧
    (∀ p ∈ pairs, ∀ t ∈ s.tasks, t.id = p.1 → { t with order := p.2 } ∈ s2.tasks) ∧
    (∀ t ∈ s.tasks, (∀ p ∈ pairs, p.1 ≠ t.id) → t ∈ s2.tasks) ∧
    s2.tasks = s.tasks.map (fun t =>
      match pairs.find? (fun p => decide (p.1 = t.id)) with
      | some p => { t with order := p.2 }
      | none => t) ∧
    s2.columns = s.columns

/-- Successful column reorder: the column-side mirror of the task statement. -/
def ReorderVerbatimColumns (u : Int) (s : Store) (items : List ReorderItem)
    (pairs : List (Int × Int)) : Prop :=
  ∃ s2, reorder_columns_post u s items = .ok (s2, pairs.length) ∧
    (∀ p ∈ pairs, ∀ c ∈ s.columns, c.id = p.1 → { c with order := p.2 } ∈ s2.columns) ∧
    (∀ c ∈ s.columns, (∀ p ∈ pairs, p.1 ≠ c.id) → c ∈ s2.columns) ∧
    s2.columns = s.columns.map (fun c =>
      match pairs.find? (fun p => decide (p.1 = c.id)) with
      | some p => { c with order := p.2 }
      | none => c) ∧
    s2.tasks = s.tasks

/-- The created task's order is one more than the maximum order over all of
the owner's tasks, in every column, and 1 when the owner has none. -/
def CreateOrderIsGlobalMax (u : Int) (s : Store) (tk : Task) : Prop :=
  (ownedTasks u s = [] → tk.order = 1) ∧
  (ownedTasks u s ≠ [] → ∃ t0 ∈ ownedTasks u s,
    (∀ t ∈ ownedTasks u s, t.order ≤ t0.order) ∧ tk.order = t0.order + 1)

/-- Post-state of a successful move: the moved task sits in the target column,
keeps its order exactly when no new order was supplied, and takes the supplied
order verbatim otherwise. -/
def MoveSemantics (u : Int) (s s2 : Store) (taskId columnId : Int)
    (newOrder : Option Int) (now : Int) : Prop :=
  ∀ t ∈ s.tasks, t.id = taskId → t.user = u ∧
    (newOrder = none → { t with column := columnId, updatedAt := now } ∈ s2.tasks) ∧
    (∀ o, newOrder = some o →
      { t with column := columnId, order := o, updatedAt := now } ∈ s2.tasks)

/-- Failure modes of the move endpoint: a task the caller does not own is
NotFound; an unowned target column on an owned task is a ValidationError; in
both cases the store is untouched. -/
def MoveErrorSpec (u : Int) (s : Store) (taskId columnId : Int)
    (newOrder : Option Int) (now : Int) : Prop :=
  ((∀ t ∈ ownedTasks u s, t.id ≠ taskId) →
    task_move u s taskId columnId newOrder now = .error .notFound ∧
    resultState s (task_move u s taskId columnId newOrder now) = s) ∧
  ((∃ t ∈ ownedTasks u s, t.id = taskId) → order_min_ok newOrder = true →
   (∀ c ∈ ownedColumns u s, c.id ≠ columnId) →
    task_move u s taskId columnId newOrder now = .error .validationError ∧
    resultState s (task_move u s taskId columnId newOrder now) = s)

/-- Cascade behaviour of column deletion: no surviving task references the
deleted column, tasks of other columns survive unchanged, and nothing new
appears. -/
def CascadeSpec (s s2 : Store) (cid : Int) : Prop :=
  (∀ t ∈ s2.tasks, t.column ≠ cid) ∧
  (∀ t ∈ s.tasks, t.column ≠ cid → t ∈ s2.tasks) ∧
  (∀ t ∈ s2.tasks, t ∈ s.tasks) ∧
  (∀ t ∈ s.tasks, t.column = cid → t ∉ s2.tasks)

/-- The task-owner/column-owner invariant survives every task write. -/
def WritePreservesOwnership (u : Int) (s : Store) : Prop :=
  (∀ ti de cid nid now tk s2, task_create u s ti de cid nid now = .ok (tk, s2) →
    OwnerConsistent s2) ∧
  (∀ tid cid ord now s2, task_move u s tid cid ord now = .ok s2 →
    OwnerConsistent s2) ∧
  (∀ tid ti de cid ord now s2, task_update u s tid ti de cid ord now = .ok s2 →
    OwnerConsistent s2)

/-- Whitespace-only titles and names are validation errors that leave the
store untouched; accepted ones are stored trimmed. -/
def TrimSpec (u : Int) (s : Store) : Prop :=
  (∀ ti de cid nid now, pyStrip ti = "" →
    task_create u s ti de cid nid now = .error .validationError ∧
    resultStateTask s (task_create u s ti de cid nid now) = s) ∧
  (∀ ti de cid nid now tk s2, task_create u s ti de cid nid now = .ok (tk, s2) →
    tk.title = pyStrip ti) ∧
  (∀ nm nid, pyStrip nm = "" →
    column_create u s nm nid = .error .validationError ∧
    resultStateColumn s (column_create u s nm nid) = s) ∧
  (∀ nm nid c s2, column_create u s nm nid = .ok (c, s2) → c.name = pyStrip nm) ∧
  (∀ cid nm, (∃ c ∈ ownedColumns u s, c.id = cid) → pyStrip nm = "" →
    column_update_name u s cid nm = .error .validationError ∧
    resultState s (column_update_name u s cid nm) = s) ∧
  (∀ cid nm s2, column_update_name u s cid nm = .ok s2 →
    ∀ c ∈ s2.columns, c.id = cid → c.user = u → c.name = pyStrip nm)

/-- A reorder payload that is empty or has an item missing a key. -/
def EmptyOrMalformed (items : List ReorderItem) : Prop :=
  items = [] ∨ ∃ item ∈ items, item.idKey = none ∨ item.orderKey = none

/-- Malformed reorder payloads are validation errors on both endpoints, with
the store untouched. -/
def ReorderRejectSpec (u : Int) (s : Store) (items : List ReorderItem) : Prop :=
  reorder_tasks_post u s items = .error .validationError ∧
  reorder_columns_post u s items = .error .validationError ∧
  resultStatePair s (reorder_tasks_post u s items) = s ∧
  resultStatePair s (reorder_columns_post u s items) = s

/-- Concrete two-user board used by the witnesses. -/
def colBacklog : Column := { id := 1, user := 1, name := "Backlog", order := 1 }

/-- Second column of user 1. -/
def colDone : Column := { id := 2, user := 1, name := "Done", order := 2 }

/-- A column of a different user. -/
def colOther : Column := { id := 3, user := 2, name := "Inbox", order := 1 }

/-- A task of user 1 in Backlog. -/
def taskT1 : Task :=
  { id := 100, user := 1, title := "T1", description := "", column := 1,
    order := 1, createdAt := 5, updatedAt := 5 }

/-- A task of user 1 in Done. -/
def taskT2 : Task :=
  { id := 101, user := 1, title := "T2", description := "", column := 2,
    order := 2, createdAt := 6, updatedAt := 6 }

/-- A task of user 2. -/
def taskOther : Task :=
  { id := 102, user := 2, title := "X", description := "", column := 3,
    order := 1, createdAt := 7, updatedAt := 7 }

/-- The sample store holding both users' data. -/
def sampleStore : Store :=
  { columns := [colBacklog, colDone, colOther], tasks := [taskT1, taskT2, taskOther] }

/-- Reorder payload referencing a task of the other user. -/
def demoItemsBad : List ReorderItem := [{ idKey := some 102, orderKey := some 5 }]

/-- Well-formed reorder payload over user 1 data. -/
def demoItemsGood : List ReorderItem :=
  [{ idKey := some 100, orderKey := some 9 }, { idKey := some 101, orderKey := some 4 }]

/-- Column-reorder payload over user 1 data. -/
def demoItemsCols : List ReorderItem :=
  [{ idKey := some 2, orderKey := some 1 }, { idKey := some 1, orderKey := some 2 }]

/-- Payload whose single item is missing the order key. -/
def demoItemsMissing : List ReorderItem := [{ idKey := some 100, orderKey := none }]

/-- The task the create witness expects. -/
def tkC4 : Task :=
  { id := 200, user := 1, title := "New", description := "d", column := 1,
    order := 3, createdAt := 9, updatedAt := 9 }

/-- The store the move witness expects. -/
def s2C5 : Store :=
  { sampleStore with tasks := [{ taskT1 with column := 2, updatedAt := 12 }, taskT2, taskOther] }

theorem mem_ownedTasks {u : Int} {s : Store} {t : Task} :
    t ∈ ownedTasks u s ↔ t ∈ s.tasks ∧ t.user = u := by
  simp [ownedTasks, List.mem_filter]

theorem mem_ownedColumns {u : Int} {s : Store} {c : Column} :
    c ∈ ownedColumns u s ↔ c ∈ s.columns ∧ c.user = u := by
  simp [ownedColumns, List.mem_filter]

theorem task_retrieve_some {u : Int} {s : Store} {taskId : Int} {t : Task}
    (h : task_retrieve u s taskId = some t) :
    t ∈ s.tasks ∧ t.user = u ∧ t.id = taskId := by
  have hmem := List.mem_of_find?_eq_some h
  have hp := List.find?_some h
  rw [mem_ownedTasks] at hmem
  exact ⟨hmem.1, hmem.2, of_decide_eq_true hp⟩

theorem column_retrieve_some {u : Int} {s : Store} {cid : Int} {c : Column}
    (h : column_retrieve u s cid = some c) :
    c ∈ s.columns ∧ c.user = u ∧ c.id = cid := by
  have hmem := List.mem_of_find?_eq_some h
  have hp := List.find?_some h
  rw [mem_ownedColumns] at hmem
  exact ⟨hmem.1, hmem.2, of_decide_eq_true hp⟩

theorem task_retrieve_eq_none {u : Int} {s : Store} {taskId : Int}
    (h : ∀ t ∈ ownedTasks u s, t.id ≠ taskId) :
    task_retrieve u s taskId = none := by
  rw [task_retrieve, List.find?_eq_none]
  intro t ht
  simpa using h t ht

theorem column_retrieve_eq_none {u : Int} {s : Store} {cid : Int}
    (h : ∀ c ∈ ownedColumns u s, c.id ≠ cid) :
    column_retrieve u s cid = none := by
  rw [column_retrieve, List.find?_eq_none]
  intro c hc
  simpa using h c hc

theorem task_retrieve_isSome {u : Int} {s : Store} {taskId : Int}
    (h : ∃ t ∈ ownedTasks u s, t.id = taskId) :
    ∃ t, task_retrieve u s taskId = some t := by
  have : (task_retrieve u s taskId).isSome := by
    rw [task_retrieve, List.find?_isSome]
    obtain ⟨t, ht, hid⟩ := h
    exact ⟨t, ht, by simpa using hid⟩
  exact Option.isSome_iff_exists.mp this

theorem column_retrieve_isSome {u : Int} {s : Store} {cid : Int}
    (h : ∃ c ∈ ownedColumns u s, c.id = cid) :
    ∃ c, column_retrieve u s cid = some c := by
  have : (column_retrieve u s cid).isSome := by
    rw [column_retrieve, List.find?_isSome]
    obtain ⟨c, hc, hid⟩ := h
    exact ⟨c, hc, by simpa using hid⟩
  exact Option.isSome_iff_exists.mp this

theorem listMaxOr0_spec (l : List Int) (h : l ≠ []) :
    ∃ x ∈ l, listMaxOr0 l = x ∧ ∀ y ∈ l, y ≤ x := by
  induction l with
  | nil => exact absurd rfl h
  | cons a l ih =>
    cases l with
    | nil =>
      refine ⟨a, List.mem_singleton_self a, rfl, ?_⟩
      intro y hy
      rw [List.mem_singleton] at hy
      exact le_of_eq hy
    | cons b l2 =>
      obtain ⟨x, hx, hmax, hub⟩ := ih (by simp)
      by_cases hax : a ≤ x
      · refine ⟨x, List.mem_cons_of_mem a hx, ?_, ?_⟩
        · show max a (listMaxOr0 (b :: l2)) = x
          rw [hmax, max_eq_right hax]
        · intro y hy
          rcases List.mem_cons.mp hy with hy | hy
          · exact hy ▸ hax
          · exact hub y hy
      · push_neg at hax
        refine ⟨a, List.mem_cons_self a (b :: l2), ?_, ?_⟩
        · show max a (listMaxOr0 (b :: l2)) = a
          rw [hmax, max_eq_left (le_of_lt hax)]
        · intro y hy
          rcases List.mem_cons.mp hy with hy | hy
          · exact le_of_eq hy
          · exact le_of_lt (lt_of_le_of_lt (hub y hy) hax)

theorem filter_map_eq_filter {α : Type} (p : α → Bool) (f : α → α)
    (hpres : ∀ x, p (f x) = p x) (hid : ∀ x, p x = true → f x = x) :
    ∀ l : List α, (l.map f).filter p = l.filter p := by
  intro l
  induction l with
  | nil => rfl
  | cons a l ih =>
    by_cases h : p a = true
    · simp [List.filter_cons, hpres, h, hid a h, ih]
    · simp [List.filter_cons, hpres, h, ih]

theorem filter_filter_imp {α : Type} (p q : α → Bool) (l : List α)
    (h : ∀ x ∈ l, p x = true → q x = true) :
    (l.filter q).filter p = l.filter p := by
  induction l with
  | nil => rfl
  | cons a l ih =>
    have ih2 := ih (fun x hx => h x (List.mem_cons_of_mem a hx))
    by_cases hq : q a = true
    · by_cases hp : p a = true
      · simp [List.filter_cons, hq, hp, ih2]
      · simp [List.filter_cons, hq, hp, ih2]
    · have hp : ¬ p a = true := fun hp => hq (h a (List.mem_cons_self a l) hp)
      simp [List.filter_cons, hq, hp, ih2]

theorem updateOrders_eq_map {α : Type} (getId getUser : α → Int)
    (setOrder : α → Int → α) (u : Int) (pairs : List (Int × Int)) :
    ∀ xs : List α, updateOrders getId getUser setOrder u pairs xs =
      xs.map (applyPairs getId getUser setOrder u pairs) := by
  induction pairs with
  | nil =>
    intro xs
    show xs = xs.map (fun x => x)
    simp
  | cons p pairs ih =>
    intro xs
    show updateOrders getId getUser setOrder u pairs
        (xs.map (fun x => if getId x = p.1 ∧ getUser x = u then setOrder x p.2 else x)) = _
    rw [ih, List.map_map]
    rfl

theorem applyPairs_of_forall_ne {α : Type} (getId getUser : α → Int)
    (setOrder : α → Int → α) (u : Int) (pairs : List (Int × Int)) (x : α)
    (h : ∀ p ∈ pairs, p.1 ≠ getId x) :
    applyPairs getId getUser setOrder u pairs x = x := by
  induction pairs with
  | nil => rfl
  | cons p pairs ih =>
    show applyPairs getId getUser setOrder u pairs
        (if getId x = p.1 ∧ getUser x = u then setOrder x p.2 else x) = x
    rw [if_neg (fun hc => h p (List.mem_cons_self p pairs) hc.1.symm)]
    exact ih (fun q hq => h q (List.mem_cons_of_mem p hq))

theorem applyPairs_of_user_ne {α : Type} (getId getUser : α → Int)
    (setOrder : α → Int → α) (u : Int) (pairs : List (Int × Int)) (x : α)
    (h : getUser x ≠ u) :
    applyPairs getId getUser setOrder u pairs x = x := by
  induction pairs with
  | nil => rfl
  | cons p pairs ih =>
    show applyPairs getId getUser setOrder u pairs
        (if getId x = p.1 ∧ getUser x = u then setOrder x p.2 else x) = x
    rw [if_neg (fun hc => h hc.2)]
    exact ih

theorem applyPairs_set {α : Type} (getId getUser : α → Int)
    (setOrder : α → Int → α) (u : Int)
    (hgi : ∀ x o, getId (setOrder x o) = getId x) :
    ∀ (pairs : List (Int × Int)) (x : α) (i o : Int),
      (pairs.map Prod.fst).Nodup → (i, o) ∈ pairs → getId x = i → getUser x = u →
      applyPairs getId getUser setOrder u pairs x = setOrder x o := by
  intro pairs
  induction pairs with
  | nil => intro x i o _ hmem; exact absurd hmem (List.not_mem_nil (i, o))
  | cons p pairs ih =>
    intro x i o hnd hmem hid huser
    have hnd2 := (List.nodup_cons.mp hnd).2
    have hfst := (List.nodup_cons.mp hnd).1
    show applyPairs getId getUser setOrder u pairs
        (if getId x = p.1 ∧ getUser x = u then setOrder x p.2 else x) = setOrder x o
    rcases List.mem_cons.mp hmem with hmem | hmem
    · have hp1 : p.1 = i := by rw [← hmem]
      have hp2 : p.2 = o := by rw [← hmem]
      rw [if_pos ⟨hid.trans hp1.symm, huser⟩, hp2]
      refine applyPairs_of_forall_ne getId getUser setOrder u pairs (setOrder x o) ?_
      intro q hq
      rw [hgi x o, hid, ← hp1]
      intro hcontra
      exact hfst (hcontra ▸ List.mem_map_of_mem Prod.fst hq)
    · have hne : p.1 ≠ i := by
        intro hcontra
        apply hfst
        rw [hcontra]
        exact List.mem_map_of_mem Prod.fst hmem
      rw [if_neg (fun hc => hne (hc.1.symm.trans hid))]
      exact ih x i o hnd2 hmem hid huser

theorem sameIdSet_true_iff (l1 l2 : List Int) :
    sameIdSet l1 l2 = true ↔ ((∀ i ∈ l1, i ∈ l2) ∧ ∀ i ∈ l2, i ∈ l1) := by
  simp [sameIdSet, List.all_eq_true]

theorem checked_ids_true {α : Type} (getId : α → Int) (owned : List α)
    (ids : List Int) (h : ∀ i ∈ ids, ∃ x ∈ owned, getId x = i) :
    sameIdSet ids ((owned.filter (fun x => ids.contains (getId x))).map getId) = true := by
  rw [sameIdSet_true_iff]
  constructor
  · intro i hi
    obtain ⟨x, hx, hgx⟩ := h i hi
    refine List.mem_map.mpr ⟨x, List.mem_filter.mpr ⟨hx, ?_⟩, hgx⟩
    simp [hgx, hi]
  · intro i hi
    obtain ⟨x, hx, hgx⟩ := List.mem_map.mp hi
    have := (List.mem_filter.mp hx).2
    rw [hgx] at this
    simpa using this

theorem checked_ids_false {α : Type} (getId : α → Int) (owned : List α)
    (ids : List Int) (i : Int) (hi : i ∈ ids) (hnone : ∀ x ∈ owned, getId x ≠ i) :
    sameIdSet ids ((owned.filter (fun x => ids.contains (getId x))).map getId) = false := by
  rw [← Bool.not_eq_true, sameIdSet_true_iff]
  intro hcontra
  obtain ⟨x, hx, hgx⟩ := List.mem_map.mp (hcontra.1 i hi)
  exact hnone x (List.mem_filter.mp hx).1 hgx

theorem collect_orders_none {items : List ReorderItem} {item : ReorderItem}
    (hmem : item ∈ items) (hmiss : item.idKey = none ∨ item.orderKey = none) :
    collect_orders items = none := by
  induction items with
  | nil => exact absurd hmem (List.not_mem_nil item)
  | cons a items ih =>
    rcases List.mem_cons.mp hmem with hmem | hmem
    · subst hmem
      rw [collect_orders]
      rcases hmiss with hmiss | hmiss
      · rw [hmiss]
      · rw [hmiss]
        cases h2 : item.idKey <;> rfl
    · rw [collect_orders]
      cases h2 : a.idKey with
      | none => rfl
      | some i =>
        cases h3 : a.orderKey with
        | none => rfl
        | some o => rw [ih hmem]; rfl

theorem task_create_ok {u : Int} {s : Store} {ti de : String} {cid nid now : Int}
    {tk : Task} {s2 : Store}
    (h : task_create u s ti de cid nid now = .ok (tk, s2)) :
    ∃ title, validate_title ti = some title ∧
      (∃ c, column_retrieve u s cid = some c) ∧
      tk = { id := nid, user := u, title := title, description := de, column := cid,
             order := listMaxOr0 ((ownedTasks u s).map Task.order) + 1,
             createdAt := now, updatedAt := now } ∧
      s2 = { s with tasks := s.tasks ++ [tk] } := by
  unfold task_create at h
  split at h
  · exact absurd h (by simp)
  · rename_i title hv
    split at h
    · exact absurd h (by simp)
    · rename_i c hc
      simp only [Except.ok.injEq, Prod.mk.injEq] at h
      exact ⟨title, hv, ⟨c, hc⟩, h.1.symm, by rw [← h.2, h.1]⟩

theorem column_create_ok {u : Int} {s : Store} {nm : String} {nid : Int}
    {c : Column} {s2 : Store}
    (h : column_create u s nm nid = .ok (c, s2)) :
    ∃ name, validate_name nm = some name ∧
      c = { id := nid, user := u, name := name,
            order := listMaxOr0 ((ownedColumns u s).map Column.order) + 1 } ∧
      s2 = { s with columns := s.columns ++ [c] } := by
  unfold column_create at h
  split at h
  · exact absurd h (by simp)
  · rename_i name hv
    simp only [Except.ok.injEq, Prod.mk.injEq] at h
    exact ⟨name, hv, h.1.symm, by rw [← h.2, h.1]⟩

theorem column_update_name_ok {u : Int} {s : Store} {cid : Int} {nm : String}
    {s2 : Store} (h : column_update_name u s cid nm = .ok s2) :
    ∃ name, validate_name nm = some name ∧
      s2 = { s with columns := s.columns.map (fun c =>
        if c.id = cid ∧ c.user = u then { c with name := name } else c) } := by
  unfold column_update_name at h
  split at h
  · exact absurd h (by simp)
  · split at h
    · exact absurd h (by simp)
    · rename_i name hv
      simp only [Except.ok.injEq] at h
      exact ⟨name, hv, h.symm⟩

theorem task_update_ok {u : Int} {s : Store} {tid : Int} {ti de : String}
    {cid : Int} {ord : Option Int} {now : Int} {s2 : Store}
    (h : task_update u s tid ti de cid ord now = .ok s2) :
    ∃ title, validate_title ti = some title ∧
      (∃ c, column_retrieve u s cid = some c) ∧
      s2 = { s with tasks := s.tasks.map (fun t =>
        if t.id = tid ∧ t.user = u then
          { t with title := title, description := de, column := cid,
                   order := ord.getD t.order, updatedAt := now }
        else t) } := by
  unfold task_update at h
  split at h
  · exact absurd h (by simp)
  · split at h
    · exact absurd h (by simp)
    · rename_i title hv
      split at h
      · exact absurd h (by simp)
      · rename_i c hc
        simp only [Except.ok.injEq] at h
        exact ⟨title, hv, ⟨c, hc⟩, h.symm⟩

theorem task_move_ok {u : Int} {s : Store} {tid cid : Int} {ord : Option Int}
    {now : Int} {s2 : Store} (h : task_move u s tid cid ord now = .ok s2) :
    (∃ t, task_retrieve u s tid = some t) ∧
      (∃ c, column_retrieve u s cid = some c) ∧
      s2 = { s with tasks := s.tasks.map (fun t =>
        if t.id = tid ∧ t.user = u then
          { t with column := cid, order := ord.getD t.order, updatedAt := now }
        else t) } := by
  unfold task_move at h
  split at h
  · exact absurd h (by simp)
  · rename_i t0 ht0
    split at h
    · exact absurd h (by simp)
    · split at h
      · exact absurd h (by simp)
      · rename_i c hc
        simp only [Except.ok.injEq] at h
        exact ⟨⟨t0, ht0⟩, ⟨c, hc⟩, h.symm⟩

theorem task_destroy_ok {u : Int} {s : Store} {tid : Int} {s2 : Store}
    (h : task_destroy u s tid = .ok s2) :
    (∃ t, task_retrieve u s tid = some t) ∧
      s2 = { s with tasks := s.tasks.filter (fun t => decide (t.id ≠ tid)) } := by
  unfold task_destroy at h
  split at h
  · exact absurd h (by simp)
  · rename_i t0 ht0
    simp only [Except.ok.injEq] at h
    exact ⟨⟨t0, ht0⟩, h.symm⟩

theorem column_destroy_ok {u : Int} {s : Store} {cid : Int} {s2 : Store}
    (h : column_destroy u s cid = .ok s2) :
    (∃ c, column_retrieve u s cid = some c) ∧
      s2 = { columns := s.columns.filter (fun c => decide (c.id ≠ cid)),
             tasks := s.tasks.filter (fun t => decide (t.column ≠ cid)) } := by
  unfold column_destroy at h
  split at h
  · exact absurd h (by simp)
  · rename_i c0 hc0
    simp only [Except.ok.injEq] at h
    exact ⟨⟨c0, hc0⟩, h.symm⟩

theorem column_destroy_success {u : Int} {s : Store} {cid : Int} {c : Column}
    (hc : column_retrieve u s cid = some c) :
    column_destroy u s cid =
      .ok { columns := s.columns.filter (fun c2 => decide (c2.id ≠ cid)),
            tasks := s.tasks.filter (fun t => decide (t.column ≠ cid)) } := by
  unfold column_destroy
  rw [hc]

theorem reorder_tasks_post_forbidden {u : Int} {s : Store}
    {items : List ReorderItem} {pairs : List (Int × Int)}
    (hv : validate_orders items = some pairs)
    (hbad : ∃ p ∈ pairs, ∀ t ∈ ownedTasks u s, t.id ≠ p.1) :
    reorder_tasks_post u s items = .error .forbidden := by
  obtain ⟨p, hp, hnone⟩ := hbad
  unfold reorder_tasks_post
  rw [hv]
  have hfalse := checked_ids_false Task.id (ownedTasks u s) (pairs.map Prod.fst)
    p.1 (List.mem_map_of_mem Prod.fst hp) hnone
  simp only [hfalse, Bool.false_eq_true, if_false]

theorem reorder_columns_post_forbidden {u : Int} {s : Store}
    {items : List ReorderItem} {pairs : List (Int × Int)}
    (hv : validate_orders items = some pairs)
    (hbad : ∃ p ∈ pairs, ∀ c ∈ ownedColumns u s, c.id ≠ p.1) :
    reorder_columns_post u s items = .error .forbidden := by
  obtain ⟨p, hp, hnone⟩ := hbad
  unfold reorder_columns_post
  rw [hv]
  have hfalse := checked_ids_false Column.id (ownedColumns u s) (pairs.map Prod.fst)
    p.1 (List.mem_map_of_mem Prod.fst hp) hnone
  simp only [hfalse, Bool.false_eq_true, if_false]

theorem reorder_tasks_post_success {u : Int} {s : Store}
    {items : List ReorderItem} {pairs : List (Int × Int)}
    (hv : validate_orders items = some pairs)
    (hall : ∀ p ∈ pairs, ∃ t ∈ ownedTasks u s, t.id = p.1) :
    reorder_tasks_post u s items =
      .ok ({ s with tasks := updateOrders Task.id Task.user taskSetOrder u pairs s.tasks },
           pairs.length) := by
  unfold reorder_tasks_post
  rw [hv]
  have htrue := checked_ids_true Task.id (ownedTasks u s) (pairs.map Prod.fst) ?_
  · simp only [htrue, if_true]
  · intro i hi
    obtain ⟨p, hp, hpi⟩ := List.mem_map.mp hi
    obtain ⟨t, ht, hti⟩ := hall p hp
    exact ⟨t, ht, hti.trans hpi⟩

theorem reorder_columns_post_success {u : Int} {s : Store}
    {items : List ReorderItem} {pairs : List (Int × Int)}
    (hv : validate_orders items = some pairs)
    (hall : ∀ p ∈ pairs, ∃ c ∈ ownedColumns u s, c.id = p.1) :
    reorder_columns_post u s items =
      .ok ({ s with columns := updateOrders Column.id Column.user columnSetOrder u pairs s.columns },
           pairs.length) := by
  unfold reorder_columns_post
  rw [hv]
  have htrue := checked_ids_true Column.id (ownedColumns u s) (pairs.map Prod.fst) ?_
  · simp only [htrue, if_true]
  · intro i hi
    obtain ⟨p, hp, hpi⟩ := List.mem_map.mp hi
    obtain ⟨c, hc, hci⟩ := hall p hp
    exact ⟨c, hc, hci.trans hpi⟩

theorem reorder_tasks_post_ok {u : Int} {s : Store} {items : List ReorderItem}
    {s2 : Store} {n : Nat} (h : reorder_tasks_post u s items = .ok (s2, n)) :
    ∃ pairs, validate_orders items = some pairs ∧
      s2 = { s with tasks := updateOrders Task.id Task.user taskSetOrder u pairs s.tasks } := by
  unfold reorder_tasks_post at h
  split at h
  · exact absurd h (by simp)
  · rename_i pairs hv
    simp only [] at h
    split at h
    · simp only [Except.ok.injEq, Prod.mk.injEq] at h
      exact ⟨pairs, hv, h.1.symm⟩
    · exact absurd h (by simp)

theorem validate_title_some {v t : String} (h : validate_title v = some t) :
    t = pyStrip v := by
  simp only [validate_title] at h
  split at h
  · exact absurd h (by simp)
  · split at h
    · exact absurd h (by simp)
    · simp only [Option.some.injEq] at h
      exact h.symm

theorem validate_name_some {v t : String} (h : validate_name v = some t) :
    t = pyStrip v := by
  simp only [validate_name] at h
  split at h
  · exact absurd h (by simp)
  · split at h
    · exact absurd h (by simp)
    · simp only [Option.some.injEq] at h
      exact h.symm

theorem validate_title_blank {v : String} (h : pyStrip v = "") :
    validate_title v = none := by
  simp [validate_title, h]

theorem validate_name_blank {v : String} (h : pyStrip v = "") :
    validate_name v = none := by
  simp [validate_name, h]

theorem mem_sortTasks {t : Task} {l : List Task} : t ∈ sortTasks l ↔ t ∈ l := by
  unfold sortTasks
  exact List.mem_mergeSort

theorem mem_sortColumns {c : Column} {l : List Column} : c ∈ sortColumns l ↔ c ∈ l := by
  unfold sortColumns
  exact List.mem_mergeSort

theorem find_pair_of_nodup {pairs : List (Int × Int)}
    (hnd : (pairs.map Prod.fst).Nodup) {p : Int × Int} (hp : p ∈ pairs) :
    pairs.find? (fun q => decide (q.1 = p.1)) = some p := by
  induction pairs with
  | nil => cases hp
  | cons a pairs ih =>
    rcases List.mem_cons.mp hp with hp | hp
    · subst hp
      exact List.find?_cons_of_pos pairs (by simp)
    · have hnd2 := (List.nodup_cons.mp hnd).2
      have hne : a.1 ≠ p.1 := fun hcontra =>
        (List.nodup_cons.mp hnd).1 (hcontra ▸ List.mem_map_of_mem Prod.fst hp)
      rw [List.find?_cons_of_neg pairs (by simpa using hne)]
      exact ih hnd2 hp

theorem applyPairs_user_pres {α : Type} (getId getUser : α → Int)
    (setOrder : α → Int → α) (u : Int)
    (hgu : ∀ x o, getUser (setOrder x o) = getUser x)
    (pairs : List (Int × Int)) (x : α) :
    getUser (applyPairs getId getUser setOrder u pairs x) = getUser x := by
  induction pairs generalizing x with
  | nil => rfl
  | cons p pairs ih =>
    show getUser (applyPairs getId getUser setOrder u pairs
      (if getId x = p.1 ∧ getUser x = u then setOrder x p.2 else x)) = getUser x
    by_cases hc : getId x = p.1 ∧ getUser x = u
    · rw [if_pos hc, ih (setOrder x p.2), hgu]
    · rw [if_neg hc, ih x]

theorem updateOrders_spec {α : Type} (getId getUser : α → Int)
    (setOrder : α → Int → α) (hgi : ∀ x o, getId (setOrder x o) = getId x)
    (u : Int) (pairs : List (Int × Int)) (xs : List α)
    (hnd : (pairs.map Prod.fst).Nodup) (hxsnd : (xs.map getId).Nodup)
    (hall : ∀ p ∈ pairs, ∃ x, x ∈ xs ∧ getId x = p.1 ∧ getUser x = u) :
    updateOrders getId getUser setOrder u pairs xs =
      xs.map (fun x =>
        match pairs.find? (fun p => decide (p.1 = getId x)) with
        | some p => setOrder x p.2
        | none => x) := by
  rw [updateOrders_eq_map]
  apply List.map_congr_left
  intro x hx
  cases hf : pairs.find? (fun p => decide (p.1 = getId x)) with
  | none =>
    have hnone : ∀ p ∈ pairs, p.1 ≠ getId x := by
      intro p hp
      have := List.find?_eq_none.mp hf p hp
      simpa using this
    exact applyPairs_of_forall_ne getId getUser setOrder u pairs x hnone
  | some q =>
    have hqmem := List.mem_of_find?_eq_some hf
    have hq := List.find?_some hf
    have hqid : q.1 = getId x := by simpa using hq
    obtain ⟨x2, hx2, hx2id, hx2u⟩ := hall q hqmem
    have hxeq : x = x2 :=
      List.inj_on_of_nodup_map hxsnd hx hx2 (by rw [hx2id, hqid])
    have hq2 : (q.1, q.2) ∈ pairs := by simpa using hqmem
    exact applyPairs_set getId getUser setOrder u hgi pairs x q.1 q.2 hnd hq2
      hqid.symm (hxeq ▸ hx2u)

theorem frame_map_tasks {B : Int} {s : Store} (f : Task → Task)
    (hpres : ∀ t, (f t).user = t.user) (hid : ∀ t, t.user = B → f t = t) :
    ownedTasks B { s with tasks := s.tasks.map f } = ownedTasks B s := by
  show (s.tasks.map f).filter (fun t => decide (t.user = B)) = _
  apply filter_map_eq_filter
  · intro t
    simp [hpres t]
  · intro t ht
    exact hid t (of_decide_eq_true ht)

theorem frame_map_columns {B : Int} {s : Store} (f : Column → Column)
    (hpres : ∀ c, (f c).user = c.user) (hid : ∀ c, c.user = B → f c = c) :
    ownedColumns B { s with columns := s.columns.map f } = ownedColumns B s := by
  show (s.columns.map f).filter (fun c => decide (c.user = B)) = _
  apply filter_map_eq_filter
  · intro c
    simp [hpres c]
  · intro c hc
    exact hid c (of_decide_eq_true hc)

theorem frame_append_task {B : Int} {s : Store} {tk : Task} (h : tk.user ≠ B) :
    ownedTasks B { s with tasks := s.tasks ++ [tk] } = ownedTasks B s := by
  show (s.tasks ++ [tk]).filter (fun t => decide (t.user = B)) = _
  rw [List.filter_append]
  simp [h, ownedTasks]

theorem frame_append_column {B : Int} {s : Store} {c : Column} (h : c.user ≠ B) :
    ownedColumns B { s with columns := s.columns ++ [c] } = ownedColumns B s := by
  show (s.columns ++ [c]).filter (fun c2 => decide (c2.user = B)) = _
  rw [List.filter_append]
  simp [h, ownedColumns]

theorem reorder_columns_post_ok {u : Int} {s : Store} {items : List ReorderItem}
    {s2 : Store} {n : Nat} (h : reorder_columns_post u s items = .ok (s2, n)) :
    ∃ pairs, validate_orders items = some pairs ∧
      s2 = { s with columns := updateOrders Column.id Column.user columnSetOrder u pairs s.columns } := by
  unfold reorder_columns_post at h
  split at h
  · exact absurd h (by simp)
  · rename_i pairs hv
    simp only [] at h
    split at h
    · simp only [Except.ok.injEq, Prod.mk.injEq] at h
      exact ⟨pairs, hv, h.1.symm⟩
    · exact absurd h (by simp)

end Kanban

namespace Kanban

/-- Claim C2: for every batch reorder call (tasks or columns) by an owner, if
any referenced id in the (id, order) list does not belong to that owner, the
call fails with Forbidden and no order is modified; the ownership check over
the whole list happens before any mutation. -/
theorem claim_c2_reorder_all_or_nothing (u : Int) (s : Store)
    (items : List ReorderItem) (pairs : List (Int × Int))
    (hv : validate_orders items = some pairs) :
    ReorderAllOrNothing u s items pairs := by
  constructor
  · intro hbad
    have he := reorder_tasks_post_forbidden hv hbad
    exact ⟨he, by rw [he]; rfl⟩
  · intro hbad
    have he := reorder_columns_post_forbidden hv hbad
    exact ⟨he, by rw [he]; rfl⟩

/-- Witness for C2: user 1 references task 102, which belongs to user 2. -/
theorem claim_c2_witness :
    validate_orders demoItemsBad = some [((102 : Int), (5 : Int))] ∧
    ReorderAllOrNothing 1 sampleStore demoItemsBad [((102 : Int), (5 : Int))] ∧
    reorder_tasks_post 1 sampleStore demoItemsBad = .error .forbidden := by
  have hv : validate_orders demoItemsBad = some [((102 : Int), (5 : Int))] := by decide
  have haon := claim_c2_reorder_all_or_nothing 1 sampleStore demoItemsBad
    [((102 : Int), (5 : Int))] hv
  exact ⟨hv, haon, (haon.1 (by decide)).1⟩

/-- Claim C10: an empty reorder payload, or one with an item missing the id or
order key, is rejected as a validation error on both endpoints, before any
ownership check or write; there is no successful empty batch. -/
theorem claim_c10_reorder_reject (u : Int) (s : Store) (items : List ReorderItem)
    (h : EmptyOrMalformed items) : ReorderRejectSpec u s items := by
  have hv : validate_orders items = none := by
    rcases h with h | ⟨item, hmem, hmiss⟩
    · rw [h]
      rfl
    · unfold validate_orders
      cases hi : items.isEmpty
      · simp only [Bool.false_eq_true, if_false]
        exact collect_orders_none hmem hmiss
      · simp
  have ht : reorder_tasks_post u s items = .error .validationError := by
    unfold reorder_tasks_post
    rw [hv]
  have hc : reorder_columns_post u s items = .error .validationError := by
    unfold reorder_columns_post
    rw [hv]
  exact ⟨ht, hc, by rw [ht]; rfl, by rw [hc]; rfl⟩

/-- Witness for C10: a payload whose item has no order key. -/
theorem claim_c10_witness :
    EmptyOrMalformed demoItemsMissing ∧
    ReorderRejectSpec 1 sampleStore demoItemsMissing ∧
    ReorderRejectSpec 1 sampleStore [] := by
  have hm : EmptyOrMalformed demoItemsMissing :=
    Or.inr ⟨{ idKey := some 100, orderKey := none },
      by rw [demoItemsMissing]; exact List.mem_singleton_self _, Or.inr rfl⟩
  exact ⟨hm, claim_c10_reorder_reject 1 sampleStore demoItemsMissing hm,
    claim_c10_reorder_reject 1 sampleStore [] (Or.inl rfl)⟩

/-- Claim C7: deleting an owned column cascades: afterwards no task references
the deleted column, tasks of other columns survive unchanged, and no new task
appears. -/
theorem claim_c7_cascade (u : Int) (s : Store) (cid : Int)
    (hown : ∃ c ∈ ownedColumns u s, c.id = cid) :
    ∃ s2, column_destroy u s cid = .ok s2 ∧ CascadeSpec s s2 cid := by
  obtain ⟨c, hc⟩ := column_retrieve_isSome hown
  refine ⟨_, column_destroy_success hc, ?_, ?_, ?_, ?_⟩
  · intro t ht
    have := (List.mem_filter.mp ht).2
    simpa using this
  · intro t ht hne
    exact List.mem_filter.mpr ⟨ht, by simpa using hne⟩
  · intro t ht
    exact (List.mem_filter.mp ht).1
  · intro t ht heq hcontra
    have := (List.mem_filter.mp hcontra).2
    rw [decide_eq_true_iff] at this
    exact this heq

/-- Witness for C7: user 1 deletes their column 2; task 101 lived there. -/
theorem claim_c7_witness :
    (∃ c ∈ ownedColumns 1 sampleStore, c.id = 2) ∧
    ∃ s2, column_destroy 1 sampleStore 2 = .ok s2 ∧ CascadeSpec sampleStore s2 2 := by
  have hown : ∃ c ∈ ownedColumns 1 sampleStore, c.id = 2 := by decide
  exact ⟨hown, claim_c7_cascade 1 sampleStore 2 hown⟩

/-- Claim C6: the move endpoint answers NotFound for a task id the caller does
not own, ValidationError (not NotFound) for a target column the caller does
not own, and in either failure the store is unchanged. -/
theorem claim_c6_move_errors (u : Int) (s : Store) (taskId columnId : Int)
    (newOrder : Option Int) (now : Int) :
    MoveErrorSpec u s taskId columnId newOrder now := by
  constructor
  · intro hnone
    have hr : task_retrieve u s taskId = none := task_retrieve_eq_none hnone
    have he : task_move u s taskId columnId newOrder now = .error .notFound := by
      unfold task_move
      rw [hr]
    exact ⟨he, by rw [he]; rfl⟩
  · intro hex hmin hnoc
    obtain ⟨t0, ht0⟩ := task_retrieve_isSome hex
    have hcr : column_retrieve u s columnId = none := column_retrieve_eq_none hnoc
    have he : task_move u s taskId columnId newOrder now = .error .validationError := by
      simp [task_move, ht0, hmin, hcr]
    exact ⟨he, by rw [he]; rfl⟩

/-- Witness for C6: task 999 is nobody's (NotFound); task 100 is user 1's but
column 3 belongs to user 2 (ValidationError). -/
theorem claim_c6_witness :
    task_move 1 sampleStore 999 1 none 7 = .error .notFound ∧
    task_move 1 sampleStore 100 3 none 7 = .error .validationError := by
  refine ⟨((claim_c6_move_errors 1 sampleStore 999 1 none 7).1 (by decide)).1,
    ((claim_c6_move_errors 1 sampleStore 100 3 none 7).2 (by decide) (by decide) (by decide)).1⟩

end Kanban

namespace Kanban

/-- Claim C9: whitespace-only titles and names are rejected with a validation
error and nothing is created or changed; accepted titles and names are stored
in stripped form, for task creation, column creation and column rename. -/
theorem claim_c9_trim (u : Int) (s : Store) : TrimSpec u s := by
  refine ⟨?_, ?_, ?_, ?_, ?_, ?_⟩
  · intro ti de cid nid now h
    have he : task_create u s ti de cid nid now = .error .validationError := by
      unfold task_create
      rw [validate_title_blank h]
    exact ⟨he, by rw [he]; rfl⟩
  · intro ti de cid nid now tk s2 hok
    obtain ⟨title, hv, _, htk, _⟩ := task_create_ok hok
    rw [htk]
    exact validate_title_some hv
  · intro nm nid h
    have he : column_create u s nm nid = .error .validationError := by
      unfold column_create
      rw [validate_name_blank h]
    exact ⟨he, by rw [he]; rfl⟩
  · intro nm nid c s2 hok
    obtain ⟨name, hv, hc, _⟩ := column_create_ok hok
    rw [hc]
    exact validate_name_some hv
  · intro cid nm hex h
    obtain ⟨c, hc⟩ := column_retrieve_isSome hex
    have he : column_update_name u s cid nm = .error .validationError := by
      unfold column_update_name
      rw [hc, validate_name_blank h]
    exact ⟨he, by rw [he]; rfl⟩
  · intro cid nm s2 hok c hcmem hcid hcuser
    obtain ⟨name, hv, hs2⟩ := column_update_name_ok hok
    rw [hs2] at hcmem
    obtain ⟨orig, horig, hform⟩ := List.mem_map.mp hcmem
    by_cases hcond : orig.id = cid ∧ orig.user = u
    · rw [if_pos hcond] at hform
      rw [← hform]
      exact validate_name_some hv
    · rw [if_neg hcond] at hform
      subst hform
      exact absurd ⟨hcid, hcuser⟩ hcond

/-- Witness for C9: a whitespace title is rejected; the title Padded is stored
stripped on create. -/
theorem claim_c9_witness :
    task_create 1 sampleStore "   " "" 1 300 9 = .error .validationError ∧
    (∀ tk s2, task_create 1 sampleStore " Padded " "" 1 300 9 = .ok (tk, s2) →
      tk.title = pyStrip " Padded ") := by
  refine ⟨((claim_c9_trim 1 sampleStore).1 "   " "" 1 300 9 (by decide)).1, ?_⟩
  intro tk s2 hok
  exact (claim_c9_trim 1 sampleStore).2.1 " Padded " "" 1 300 9 tk s2 hok

/-- Claim C4: a successful task creation assigns order equal to one plus the
maximum order over all of that owner's tasks in every column (1 when the owner
has no tasks), and the value depends only on the owner's own tasks. -/
theorem claim_c4_create_order (u : Int) (s : Store) (ti de : String)
    (cid nid now : Int) (tk : Task) (s2 : Store)
    (hok : task_create u s ti de cid nid now = .ok (tk, s2)) :
    CreateOrderIsGlobalMax u s tk ∧
    (∀ s3 tk3 s4, ownedTasks u s3 = ownedTasks u s →
      task_create u s3 ti de cid nid now = .ok (tk3, s4) → tk3.order = tk.order) := by
  obtain ⟨title, hv, hcex, htk, hs2⟩ := task_create_ok hok
  have horder : tk.order = listMaxOr0 ((ownedTasks u s).map Task.order) + 1 := by
    rw [htk]
  constructor
  · constructor
    · intro hempty
      rw [horder, hempty]
      decide
    · intro hne
      obtain ⟨x, hx, hmax, hub⟩ :=
        listMaxOr0_spec ((ownedTasks u s).map Task.order) (by simpa using hne)
      obtain ⟨t0, ht0, ht0x⟩ := List.mem_map.mp hx
      refine ⟨t0, ht0, ?_, ?_⟩
      · intro t ht
        rw [show t0.order = x from ht0x]
        exact hub t.order (List.mem_map_of_mem Task.order ht)
      · rw [horder, hmax, show t0.order = x from ht0x]
  · intro s3 tk3 s4 hsame hok3
    obtain ⟨title3, _, _, htk3, _⟩ := task_create_ok hok3
    rw [htk3, htk]
    simp [hsame]

/-- Witness for C4: user 1 has tasks of orders 1 and 2, so the next order
is 3. -/
theorem claim_c4_witness :
    task_create 1 sampleStore "New" "d" 1 200 9 =
      .ok (tkC4, { sampleStore with tasks := sampleStore.tasks ++ [tkC4] }) ∧
    CreateOrderIsGlobalMax 1 sampleStore tkC4 ∧ tkC4.order = 3 := by
  have heq : task_create 1 sampleStore "New" "d" 1 200 9 =
      .ok (tkC4, { sampleStore with tasks := sampleStore.tasks ++ [tkC4] }) := by decide
  exact ⟨heq, (claim_c4_create_order 1 sampleStore "New" "d" 1 200 9 tkC4 _ heq).1,
    by decide⟩

end Kanban

namespace Kanban

/-- Claim C5: after a successful move, the task is in the target column; its
order is exactly its old order when no newOrder was supplied, and exactly the
supplied newOrder otherwise. -/
theorem claim_c5_move_semantics (u : Int) (s : Store) (taskId columnId : Int)
    (newOrder : Option Int) (now : Int) (s2 : Store)
    (hwf : (s.tasks.map Task.id).Nodup)
    (hok : task_move u s taskId columnId newOrder now = .ok s2) :
    MoveSemantics u s s2 taskId columnId newOrder now := by
  obtain ⟨⟨t0, ht0⟩, _, hs2⟩ := task_move_ok hok
  obtain ⟨ht0mem, ht0user, ht0id⟩ := task_retrieve_some ht0
  intro t ht hid
  have hteq : t = t0 := List.inj_on_of_nodup_map hwf ht ht0mem (by rw [hid, ht0id])
  have huser : t.user = u := by rw [hteq]; exact ht0user
  refine ⟨huser, ?_, ?_⟩
  · intro hnone
    rw [hs2]
    refine List.mem_map.mpr ⟨t, ht, ?_⟩
    rw [if_pos ⟨hid, huser⟩, hnone]
    rfl
  · intro o ho
    rw [hs2]
    refine List.mem_map.mpr ⟨t, ht, ?_⟩
    rw [if_pos ⟨hid, huser⟩, ho]
    rfl

/-- Witness for C5: moving task 100 to column 2 with no order keeps order 1. -/
theorem claim_c5_witness :
    task_move 1 sampleStore 100 2 none 12 = .ok s2C5 ∧
    MoveSemantics 1 sampleStore s2C5 100 2 none 12 := by
  have heq : task_move 1 sampleStore 100 2 none 12 = .ok s2C5 := by decide
  exact ⟨heq, claim_c5_move_semantics 1 sampleStore 100 2 none 12 s2C5 (by decide) heq⟩

/-- Claim C3: a reorder batch whose ids are all the caller's succeeds, writes
each supplied order verbatim to the referenced row, and leaves every
unreferenced row (and the other table) completely unchanged — for tasks and
for columns. -/
theorem claim_c3_reorder_verbatim (u : Int) (s : Store) (items : List ReorderItem)
    (pairs : List (Int × Int)) (hv : validate_orders items = some pairs)
    (hnd : (pairs.map Prod.fst).Nodup) :
    ((s.tasks.map Task.id).Nodup → (∀ p ∈ pairs, ∃ t ∈ ownedTasks u s, t.id = p.1) →
      ReorderVerbatimTasks u s items pairs) ∧
    ((s.columns.map Column.id).Nodup → (∀ p ∈ pairs, ∃ c ∈ ownedColumns u s, c.id = p.1) →
      ReorderVerbatimColumns u s items pairs) := by
  constructor
  · intro hwf hall
    have hmap := updateOrders_spec Task.id Task.user taskSetOrder
      (fun x o => rfl) u pairs s.tasks hnd hwf ?_
    · refine ⟨_, reorder_tasks_post_success hv hall, ?_, ?_, hmap, rfl⟩
      · intro p hp t ht hid
        show _ ∈ updateOrders Task.id Task.user taskSetOrder u pairs s.tasks
        rw [hmap]
        refine List.mem_map.mpr ⟨t, ht, ?_⟩
        have hfind : pairs.find? (fun q => decide (q.1 = Task.id t)) = some p := by
          rw [show Task.id t = p.1 from hid]
          exact find_pair_of_nodup hnd hp
        rw [hfind]
        rfl
      · intro t ht hnone
        show _ ∈ updateOrders Task.id Task.user taskSetOrder u pairs s.tasks
        rw [hmap]
        refine List.mem_map.mpr ⟨t, ht, ?_⟩
        have hfind : pairs.find? (fun q => decide (q.1 = Task.id t)) = none := by
          rw [List.find?_eq_none]
          intro q hq
          simpa using hnone q hq
        rw [hfind]
    · intro p hp
      obtain ⟨t, ht, hid⟩ := hall p hp
      rw [mem_ownedTasks] at ht
      exact ⟨t, ht.1, hid, ht.2⟩
  · intro hwf hall
    have hmap := updateOrders_spec Column.id Column.user columnSetOrder
      (fun x o => rfl) u pairs s.columns hnd hwf ?_
    · refine ⟨_, reorder_columns_post_success hv hall, ?_, ?_, hmap, rfl⟩
      · intro p hp c hc hid
        show _ ∈ updateOrders Column.id Column.user columnSetOrder u pairs s.columns
        rw [hmap]
        refine List.mem_map.mpr ⟨c, hc, ?_⟩
        have hfind : pairs.find? (fun q => decide (q.1 = Column.id c)) = some p := by
          rw [show Column.id c = p.1 from hid]
          exact find_pair_of_nodup hnd hp
        rw [hfind]
        rfl
      · intro c hc hnone
        show _ ∈ updateOrders Column.id Column.user columnSetOrder u pairs s.columns
        rw [hmap]
        refine List.mem_map.mpr ⟨c, hc, ?_⟩
        have hfind : pairs.find? (fun q => decide (q.1 = Column.id c)) = none := by
          rw [List.find?_eq_none]
          intro q hq
          simpa using hnone q hq
        rw [hfind]
    · intro p hp
      obtain ⟨c, hc, hid⟩ := hall p hp
      rw [mem_ownedColumns] at hc
      exact ⟨c, hc.1, hid, hc.2⟩

/-- Witness for C3: user 1 reorders tasks 100 and 101 to orders 9 and 4, and
columns 2 and 1 to orders 1 and 2. -/
theorem claim_c3_witness :
    ReorderVerbatimTasks 1 sampleStore demoItemsGood [((100 : Int), (9 : Int)), (101, 4)] ∧
    ReorderVerbatimColumns 1 sampleStore demoItemsCols [((2 : Int), (1 : Int)), (1, 2)] := by
  refine ⟨(claim_c3_reorder_verbatim 1 sampleStore demoItemsGood
      [((100 : Int), (9 : Int)), (101, 4)] (by decide) (by decide)).1 (by decide) (by decide),
    (claim_c3_reorder_verbatim 1 sampleStore demoItemsCols
      [((2 : Int), (1 : Int)), (1, 2)] (by decide) (by decide)).2 (by decide) (by decide)⟩

end Kanban

namespace Kanban

/-- Claim C8: in every owner-consistent state, each task write (create, move,
full update) validates column ownership and therefore preserves the invariant
that a task's owner equals the owner of its column. -/
theorem claim_c8_invariant (u : Int) (s : Store) (hoc : OwnerConsistent s) :
    WritePreservesOwnership u s := by
  refine ⟨?_, ?_, ?_⟩
  · intro ti de cid nid now tk s2 hok
    obtain ⟨title, hv, ⟨c, hc⟩, htk, hs2⟩ := task_create_ok hok
    obtain ⟨hcmem, hcuser, hcid⟩ := column_retrieve_some hc
    intro t ht
    rw [hs2] at ht
    rcases List.mem_append.mp ht with ht | ht
    · obtain ⟨c2, hc2, hc2id, hc2u⟩ := hoc t ht
      exact ⟨c2, by rw [hs2]; exact hc2, hc2id, hc2u⟩
    · rw [List.mem_singleton] at ht
      subst ht
      refine ⟨c, by rw [hs2]; exact hcmem, ?_, ?_⟩
      · rw [htk]
        exact hcid
      · rw [htk]
        exact hcuser
  · intro tid cid ord now s2 hok
    obtain ⟨⟨t0, ht0⟩, ⟨c, hc⟩, hs2⟩ := task_move_ok hok
    obtain ⟨hcmem, hcuser, hcid⟩ := column_retrieve_some hc
    intro t ht
    rw [hs2] at ht
    obtain ⟨t1, ht1, hft⟩ := List.mem_map.mp ht
    by_cases hcond : t1.id = tid ∧ t1.user = u
    · rw [if_pos hcond] at hft
      refine ⟨c, by rw [hs2]; exact hcmem, ?_, ?_⟩
      · rw [← hft]
        exact hcid
      · rw [← hft]
        show c.user = t1.user
        rw [hcond.2]
        exact hcuser
    · rw [if_neg hcond] at hft
      subst hft
      obtain ⟨c2, hc2, hc2id, hc2u⟩ := hoc t1 ht1
      exact ⟨c2, by rw [hs2]; exact hc2, hc2id, hc2u⟩
  · intro tid ti de cid ord now s2 hok
    obtain ⟨title, hv, ⟨c, hc⟩, hs2⟩ := task_update_ok hok
    obtain ⟨hcmem, hcuser, hcid⟩ := column_retrieve_some hc
    intro t ht
    rw [hs2] at ht
    obtain ⟨t1, ht1, hft⟩ := List.mem_map.mp ht
    by_cases hcond : t1.id = tid ∧ t1.user = u
    · rw [if_pos hcond] at hft
      refine ⟨c, by rw [hs2]; exact hcmem, ?_, ?_⟩
      · rw [← hft]
        exact hcid
      · rw [← hft]
        show c.user = t1.user
        rw [hcond.2]
        exact hcuser
    · rw [if_neg hcond] at hft
      subst hft
      obtain ⟨c2, hc2, hc2id, hc2u⟩ := hoc t1 ht1
      exact ⟨c2, by rw [hs2]; exact hc2, hc2id, hc2u⟩

/-- Witness for C8: the sample store is owner-consistent, so all writes on it
preserve the invariant. -/
theorem claim_c8_witness :
    OwnerConsistent sampleStore ∧ WritePreservesOwnership 1 sampleStore := by
  have hoc : OwnerConsistent sampleStore := by decide
  exact ⟨hoc, claim_c8_invariant 1 sampleStore hoc⟩

end Kanban

namespace Kanban

/-- Claim C1: for distinct owners A and B, in a well-formed owner-consistent
store, every read operation of A (list, get, board) returns only A-owned rows
and every write operation of A (create, update, delete, move, reorder) leaves
all of B's columns and tasks unchanged. -/
theorem claim_c1_owner_isolation (A B : Int) (s : Store) (hAB : A ≠ B)
    (hwf : Store.WF s) (hoc : OwnerConsistent s) : OwnerIsolationSpec A B s := by
  obtain ⟨hwfT, hwfC⟩ := hwf
  refine ⟨?_, ?_, ?_, ?_, ?_, ?_, ?_, ?_, ?_, ?_, ?_, ?_, ?_, ?_⟩
  · intro colF t ht
    cases colF with
    | none =>
      rw [show task_get_queryset A none s = sortTasks (ownedTasks A s) from rfl] at ht
      exact (mem_ownedTasks.mp (mem_sortTasks.mp ht)).2
    | some cid =>
      rw [show task_get_queryset A (some cid) s =
        sortTasks ((ownedTasks A s).filter (fun t => decide (t.column = cid))) from rfl] at ht
      exact (mem_ownedTasks.mp (List.mem_filter.mp (mem_sortTasks.mp ht)).1).2
  · intro c hc
    unfold column_get_queryset at hc
    exact (mem_ownedColumns.mp (mem_sortColumns.mp hc)).2
  · intro tid t h
    exact (task_retrieve_some h).2.1
  · intro cid c h
    exact (column_retrieve_some h).2.1
  · intro entry hentry
    unfold board_get at hentry
    obtain ⟨c, hcmem, hform⟩ := List.mem_map.mp hentry
    have hcuser : c.user = A := (mem_ownedColumns.mp (mem_sortColumns.mp hcmem)).2
    have hcmem2 : c ∈ s.columns := (mem_ownedColumns.mp (mem_sortColumns.mp hcmem)).1
    constructor
    · rw [← hform]
      exact hcuser
    · intro t htmem
      rw [← hform] at htmem
      have ht2 := List.mem_filter.mp (mem_sortTasks.mp htmem)
      have htcol : t.column = c.id := of_decide_eq_true ht2.2
      obtain ⟨c2, hc2, hc2id, hc2u⟩ := hoc t ht2.1
      have hceq : c = c2 := List.inj_on_of_nodup_map hwfC hcmem2 hc2 (by rw [hc2id, htcol])
      rw [← hc2u, ← hceq]
      exact hcuser
  · intro ti de cid nid now tk s2 hok
    obtain ⟨title, hv, hcex, htk, hs2⟩ := task_create_ok hok
    have htku : tk.user = A := by rw [htk]
    constructor
    · rw [hs2]
      exact frame_append_task (by rw [htku]; exact hAB)
    · rw [hs2]
      rfl
  · intro nm nid c s2 hok
    obtain ⟨name, hv, hc, hs2⟩ := column_create_ok hok
    have hcu : c.user = A := by rw [hc]
    constructor
    · rw [hs2]
      rfl
    · rw [hs2]
      exact frame_append_column (by rw [hcu]; exact hAB)
  · intro tid ti de cid ord now s2 hok
    obtain ⟨title, hv, hcex, hs2⟩ := task_update_ok hok
    constructor
    · rw [hs2]
      apply frame_map_tasks
      · intro t
        by_cases hcond : t.id = tid ∧ t.user = A
        · rw [if_pos hcond]
        · rw [if_neg hcond]
      · intro t htB
        rw [if_neg (fun hc => hAB (hc.2.symm.trans htB))]
    · rw [hs2]
      rfl
  · intro cid nm s2 hok
    obtain ⟨name, hv, hs2⟩ := column_update_name_ok hok
    constructor
    · rw [hs2]
      rfl
    · rw [hs2]
      apply frame_map_columns
      · intro c
        by_cases hcond : c.id = cid ∧ c.user = A
        · rw [if_pos hcond]
        · rw [if_neg hcond]
      · intro c hcB
        rw [if_neg (fun hc => hAB (hc.2.symm.trans hcB))]
  · intro tid cid ord now s2 hok
    obtain ⟨hex, hcex, hs2⟩ := task_move_ok hok
    constructor
    · rw [hs2]
      apply frame_map_tasks
      · intro t
        by_cases hcond : t.id = tid ∧ t.user = A
        · rw [if_pos hcond]
        · rw [if_neg hcond]
      · intro t htB
        rw [if_neg (fun hc => hAB (hc.2.symm.trans htB))]
    · rw [hs2]
      rfl
  · intro tid s2 hok
    obtain ⟨⟨t0, ht0⟩, hs2⟩ := task_destroy_ok hok
    obtain ⟨ht0mem, ht0user, ht0id⟩ := task_retrieve_some ht0
    constructor
    · rw [hs2]
      show (s.tasks.filter _).filter _ = _
      apply filter_filter_imp
      intro t ht hp
      have htB : t.user = B := of_decide_eq_true hp
      have hne : t.id ≠ tid := by
        intro hcontra
        have hteq : t = t0 :=
          List.inj_on_of_nodup_map hwfT ht ht0mem (by rw [hcontra, ht0id])
        rw [hteq] at htB
        exact hAB (ht0user.symm.trans htB)
      simpa using hne
    · rw [hs2]
      rfl
  · intro cid s2 hok
    obtain ⟨⟨c0, hc0⟩, hs2⟩ := column_destroy_ok hok
    obtain ⟨hc0mem, hc0user, hc0id⟩ := column_retrieve_some hc0
    constructor
    · rw [hs2]
      show (s.tasks.filter _).filter _ = _
      apply filter_filter_imp
      intro t ht hp
      have htB : t.user = B := of_decide_eq_true hp
      obtain ⟨c2, hc2, hc2id, hc2u⟩ := hoc t ht
      have hne : t.column ≠ cid := by
        intro hcontra
        have hceq : c2 = c0 :=
          List.inj_on_of_nodup_map hwfC hc2 hc0mem (by rw [hc2id, hcontra, hc0id])
        rw [hceq] at hc2u
        exact hAB (hc0user.symm.trans (hc2u.trans htB))
      simpa using hne
    · rw [hs2]
      show (s.columns.filter _).filter _ = _
      apply filter_filter_imp
      intro c hc hp
      have hcB : c.user = B := of_decide_eq_true hp
      have hne : c.id ≠ cid := by
        intro hcontra
        have hceq : c = c0 :=
          List.inj_on_of_nodup_map hwfC hc hc0mem (by rw [hcontra, hc0id])
        rw [hceq] at hcB
        exact hAB (hc0user.symm.trans hcB)
      simpa using hne
  · intro items s2 n hok
    obtain ⟨pairs, hv, hs2⟩ := reorder_tasks_post_ok hok
    constructor
    · rw [hs2, updateOrders_eq_map]
      apply frame_map_tasks
      · intro t
        exact applyPairs_user_pres Task.id Task.user taskSetOrder A (fun x o => rfl) pairs t
      · intro t htB
        exact applyPairs_of_user_ne Task.id Task.user taskSetOrder A pairs t
          (fun heq => hAB (heq.symm.trans htB))
    · rw [hs2]
      rfl
  · intro items s2 n hok
    obtain ⟨pairs, hv, hs2⟩ := reorder_columns_post_ok hok
    constructor
    · rw [hs2]
      rfl
    · rw [hs2, updateOrders_eq_map]
      apply frame_map_columns
      · intro c
        exact applyPairs_user_pres Column.id Column.user columnSetOrder A (fun x o => rfl) pairs c
      · intro c hcB
        exact applyPairs_of_user_ne Column.id Column.user columnSetOrder A pairs c
          (fun heq => hAB (heq.symm.trans hcB))

/-- Witness for C1: owners 1 and 2 on the sample store. -/
theorem claim_c1_witness :
    (1 : Int) ≠ 2 ∧ Store.WF sampleStore ∧ OwnerConsistent sampleStore ∧
    OwnerIsolationSpec 1 2 sampleStore := by
  exact ⟨by decide, by decide, by decide,
    claim_c1_owner_isolation 1 2 sampleStore (by decide) (by decide) (by decide)⟩

end Kanban
